import Mathlib

/-!
Verification development for the accounts annotation parser
(`lang/syn/src/parser/accounts.rs`).

The Rust source is shallowly embedded: token streams become lists of
token trees, panics become `Except.error` values carrying the panic
message, and the stateful single-pass constraint tokenizer becomes a
recursive function `run` over the token list threading an explicit
accumulator state.
-/

namespace Anchor

/-- A `proc_macro2::TokenTree`: identifier, punctuation character,
literal (carried as its textual form), or a delimited group carrying
its inner token stream. -/
inductive TokenTree where
  | ident (s : String)
  | punct (c : Char)
  | lit (text : String)
  | group (stream : List TokenTree)

/-- The two materialized values of `ConstraintRentExempt`. -/
inductive RentExemptKind where
  | enforce
  | skip

/-- The `Constraint` enum. `seeds` carries the raw token group
verbatim; `literal` and the space expression carry the literal text
with quote characters stripped, provided that text re-lexes (the
`replace`/`parse().unwrap()` step in the source, see
`reparseLiteral`). -/
inductive Constraint where
  | signer
  | seeds (seeds : List TokenTree)
  | belongsTo (join_target : String)
  | owner (owner_target : String)
  | rentExempt (kind : RentExemptKind)
  | executable
  | state (program_target : String)
  | associated (associated_target : String)
  | literal (tokens : String)

/-- Mirrors `literal.to_string().replace("\"", "")`. -/
def stripQuotes (s : String) : String :=
  String.mk (s.toList.filter fun c => c ≠ '\"')

/-- The mutable accumulator state of `parse_constraints`, one field per
local variable of the Rust function. -/
structure PState where
  is_init : Bool
  is_mut : Bool
  is_signer : Bool
  constraints : List Constraint
  is_rent_exempt : Option Bool
  payer : Option String
  space : Option String
  is_associated : Bool
  associated_seeds : List String

/-- The initial accumulator state (all flags false, all lists empty). -/
def initialPState : PState :=
  { is_init := false, is_mut := false, is_signer := false, constraints := []
  , is_rent_exempt := none, payer := none, space := none
  , is_associated := false, associated_seeds := [] }

/-- Panic message for `Option::unwrap` on an exhausted iterator. -/
def unwrapMsg : String := "called Option unwrap on a None value"

/-- Panic message for the `assert!(punct.as_char() == ...)` failures. -/
def assertEqMsg : String := "assertion failed: punct.as_char() == ="

/-- Panic message for a `rent_exempt` value other than `skip`. -/
def rentSkipMsg : String :=
  "invalid syntax: omit the rent_exempt attribute to enforce rent exemption"

/-- Delimiter matching for the re-parse model: scan the characters,
pushing opening brackets and popping them on the matching closer. -/
def balancedDelims : List Char → List Char → Bool
  | [], stack => stack.isEmpty
  | c :: cs, stack =>
    if c = '(' ∨ c = '[' ∨ c = '\x7b' then balancedDelims cs (c :: stack)
    else if c = ')' then
      match stack with
      | '(' :: tl => balancedDelims cs tl
      | _ => false
    else if c = ']' then
      match stack with
      | '[' :: tl => balancedDelims cs tl
      | _ => false
    else if c = '\x7d' then
      match stack with
      | '\x7b' :: tl => balancedDelims cs tl
      | _ => false
    else balancedDelims cs stack

/-- Modelled from the spec: the space and bare-literal payloads are
re-parsed as token streams
(`literal.to_string().replace("\"", "").parse().unwrap()`); the
token-stream lexer invoked by `parse` is external to this repository.
Its failure — a LexError, which makes the `unwrap` panic — is modelled
as bracket delimiters failing to match in the quote-stripped text; the
spec otherwise treats the payload as opaque and re-emitted verbatim,
so no further lexical errors are modelled. -/
def lexes (text : String) : Bool := balancedDelims text.toList []

/-- Panic message for `.parse().unwrap()` hitting a LexError. -/
def lexErrMsg : String := "called Result unwrap on an Err value: LexError"

/-- The re-parse step shared by `space` values and top-level literal
constraints: strip the quote characters, then re-lex; a LexError is
fatal. -/
def reparseLiteral (l : String) : Except String String :=
  let text := stripQuotes l
  if lexes text then Except.ok text else Except.error lexErrMsg

/-- The result of dispatching one top-level token: a fatal error, or
the updated state together with the part of the stream the dispatch
did not consume. -/
abbrev StepRes := Except String (PState × List TokenTree)

/-- The Rust idiom repeated by every identifier-valued keyword: unwrap
the next token, assert it is the punctuation `=`, unwrap the next
token, require an identifier, and apply the keyword's effect `k` to
it. -/
def eqIdentStep (rest : List TokenTree) (s : PState) (k : PState → String → PState) : StepRes :=
  match rest with
  | TokenTree.punct c :: rest2 =>
    if c = '=' then
      match rest2 with
      | TokenTree.ident v :: rest3 => Except.ok (k s v, rest3)
      | _ :: _ => Except.error "invalid syntax"
      | [] => Except.error unwrapMsg
    else Except.error assertEqMsg
  | _ :: _ => Except.error "invalid syntax"
  | [] => Except.error unwrapMsg

/-- The `seeds` micro-grammar: `=`, then a token group, appended
verbatim. -/
def eqGroupStep (rest : List TokenTree) (s : PState) (k : PState → List TokenTree → PState) :
    StepRes :=
  match rest with
  | TokenTree.punct c :: rest2 =>
    if c = '=' then
      match rest2 with
      | TokenTree.group g :: rest3 => Except.ok (k s g, rest3)
      | _ :: _ => Except.error "invalid syntax"
      | [] => Except.error unwrapMsg
    else Except.error assertEqMsg
  | _ :: _ => Except.error "invalid syntax"
  | [] => Except.error unwrapMsg

/-- The `space` micro-grammar: `=`, then a literal (with the distinct
`invalid space` message for a wrong-kind value token). The effect `k`
is fallible because it contains the literal re-parse, whose LexError
panic aborts the whole parse. -/
def eqLitStep (rest : List TokenTree) (s : PState)
    (k : PState → String → Except String PState) : StepRes :=
  match rest with
  | TokenTree.punct c :: rest2 =>
    if c = '=' then
      match rest2 with
      | TokenTree.lit l :: rest3 =>
        match k s l with
        | Except.ok s2 => Except.ok (s2, rest3)
        | Except.error e => Except.error e
      | _ :: _ => Except.error "invalid space"
      | [] => Except.error unwrapMsg
    else Except.error assertEqMsg
  | _ :: _ => Except.error "invalid syntax"
  | [] => Except.error unwrapMsg

/-- The `rent_exempt` micro-grammar: with no following token set
enforce; otherwise `=` then the identifier `skip` (anything else is
fatal), setting skip. -/
def rentExemptStep (rest : List TokenTree) (s : PState) : StepRes :=
  match rest with
  | [] => Except.ok ({ s with is_rent_exempt := some true }, [])
  | TokenTree.punct c :: rest2 =>
    if c = '=' then
      match rest2 with
      | TokenTree.ident v :: rest3 =>
        if v = "skip" then Except.ok ({ s with is_rent_exempt := some false }, rest3)
        else Except.error rentSkipMsg
      | _ :: _ => Except.error "invalid syntax"
      | [] => Except.error unwrapMsg
    else Except.error assertEqMsg
  | _ :: _ => Except.error "invalid syntax"

/-- The identifier dispatch of the `parse_constraints` loop, one
branch per arm of the Rust `match ident.to_string().as_str()`. -/
def stepIdent (i : String) (rest : List TokenTree) (s : PState) : StepRes :=
  if i = "init" then
    Except.ok ({ s with is_init := true, is_mut := true
                      , is_rent_exempt :=
                          if s.is_rent_exempt.isNone then some true else s.is_rent_exempt }
              , rest)
  else if i = "mut" then
    Except.ok ({ s with is_mut := true }, rest)
  else if i = "signer" then
    Except.ok ({ s with is_signer := true
                      , constraints := s.constraints ++ [Constraint.signer] }, rest)
  else if i = "seeds" then
    eqGroupStep rest s fun s g => { s with constraints := s.constraints ++ [Constraint.seeds g] }
  else if i = "belongs_to" ∨ i = "has_one" then
    eqIdentStep rest s fun s tgt =>
      { s with constraints := s.constraints ++ [Constraint.belongsTo tgt] }
  else if i = "owner" then
    eqIdentStep rest s fun s tgt =>
      { s with constraints := s.constraints ++ [Constraint.owner tgt] }
  else if i = "rent_exempt" then
    rentExemptStep rest s
  else if i = "executable" then
    Except.ok ({ s with constraints := s.constraints ++ [Constraint.executable] }, rest)
  else if i = "state" then
    eqIdentStep rest s fun s tgt =>
      { s with constraints := s.constraints ++ [Constraint.state tgt] }
  else if i = "associated" then
    eqIdentStep rest s fun s tgt =>
      { s with is_associated := true, is_mut := true
             , constraints := s.constraints ++ [Constraint.associated tgt] }
  else if i = "with" then
    eqIdentStep rest s fun s seed =>
      { s with associated_seeds := s.associated_seeds ++ [seed] }
  else if i = "payer" then
    eqIdentStep rest s fun s p => { s with payer := some p }
  else if i = "space" then
    eqLitStep rest s fun s l =>
      (reparseLiteral l).map fun text => { s with space := some text }
  else
    Except.error "invalid syntax"

/-- One iteration of the `while let Some(token) = inner_tts.next()`
loop: dispatch on the token kind. -/
def step : TokenTree → List TokenTree → PState → StepRes
  | TokenTree.ident i, rest, s => stepIdent i rest s
  | TokenTree.punct c, rest, s =>
    if c = ',' then Except.ok (s, rest) else Except.error "invalid syntax"
  | TokenTree.lit l, rest, s =>
    match reparseLiteral l with
    | Except.ok text =>
      Except.ok ({ s with constraints := s.constraints ++ [Constraint.literal text] }, rest)
    | Except.error e => Except.error e
  | TokenTree.group _, _, _ => Except.error "invalid syntax"

/-- The loop, driven by a fuel parameter so that the recursion is
structural (each `step` consumes the dispatched token and possibly two
more, so `ts.length` fuel always suffices; the fuel-exhausted sentinel
is unreachable, see `runAux_fuel`). -/
def runAux : Nat → List TokenTree → PState → Except String PState
  | _, [], s => Except.ok s
  | 0, _ :: _, _ => Except.error "fuel exhausted"
  | fuel + 1, t :: rest, s =>
    match step t rest s with
    | Except.error e => Except.error e
    | Except.ok (s2, rest2) => runAux fuel rest2 s2

/-- The `while` loop of `parse_constraints` over a whole stream. -/
def run (ts : List TokenTree) (s : PState) : Except String PState :=
  runAux ts.length ts s

/-- The value returned by `parse_constraints`: the Rust 7-tuple
`(constraints, is_mut, is_signer, is_init, payer, space, associated_seeds)`. -/
structure ConstraintsParse where
  constraints : List Constraint
  is_mut : Bool
  is_signer : Bool
  is_init : Bool
  payer : Option String
  space : Option String
  associated_seeds : List String

/-- The normalization at the end of `parse_constraints`: `associated`
cancels `init`, and the tri-state rent-exemption decision is
materialized as a trailing constraint. -/
def finishConstraints (s : PState) : ConstraintsParse :=
  { constraints :=
      match s.is_rent_exempt with
      | none => s.constraints
      | some false => s.constraints ++ [Constraint.rentExempt RentExemptKind.skip]
      | some true => s.constraints ++ [Constraint.rentExempt RentExemptKind.enforce]
  , is_mut := s.is_mut
  , is_signer := s.is_signer
  , is_init := if s.is_associated then false else s.is_init
  , payer := s.payer
  , space := s.space
  , associated_seeds := s.associated_seeds }

/-- `parse_constraints` applied to the inner token stream of the
attribute's parenthesized group. -/
def parse_constraints_inner (tokens : List TokenTree) : Except String ConstraintsParse :=
  (run tokens initialPState).map finishConstraints

/-- A `syn::Attribute`: its path (carried as the list of segment
identifiers) and its trailing token stream. -/
structure Attribute where
  pathSegments : List String
  tokens : List TokenTree

/-- `parse_constraints`: the first token after the attribute path must
be a group; its stream is fed to the tokenizer loop. -/
def parse_constraints (anchor : Attribute) : Except String ConstraintsParse :=
  match anchor.tokens with
  | [] => Except.error "Must have a token group"
  | TokenTree.group g :: _ => parse_constraints_inner g
  | _ :: _ => Except.error "Invalid syntax"

/-- A generic argument in an angle-bracketed argument list
(`syn::GenericArgument`). A type argument that is a path type carries
the list of its segment identifiers (the only data the source reads
from it); every other shape is only ever rejected. -/
inductive GenericArg where
  | lifetime
  | typePath (segmentIdents : List String)
  | typeOther
  | other

/-- The arguments attached to a path segment (`syn::PathArguments`). -/
inductive PathArguments where
  | noArgs
  | angleBracketed (args : List GenericArg)
  | parenthesized

/-- One segment of a `syn::Path`. -/
structure PathSegment where
  ident : String
  arguments : PathArguments

/-- A `syn::Path`. -/
structure Path where
  segments : List PathSegment

/-- A field's declared type (`syn::Type`): either a path type or any
other type shape (only ever rejected). -/
inductive TypeExpr where
  | path (p : Path)
  | other

/-- A `syn::Field`: its (optional) name, its declared type and its
attribute list. -/
structure SynField where
  ident : Option String
  ty : TypeExpr
  attrs : List Attribute

/-- The `SysvarTy` enum. -/
inductive SysvarTy where
  | clock
  | rent
  | epochSchedule
  | fees
  | recentBlockhashes
  | slotHashes
  | slotHistory
  | stakeHistory
  | instructions
  | rewards

/-- The `Ty` enum. The wrapper structs (`ProgramStateTy` etc.) each
hold the single resolved `account_ident`, carried here directly. -/
inductive Ty where
  | programState (account_ident : String)
  | cpiState (account_ident : String)
  | programAccount (account_ident : String)
  | cpiAccount (account_ident : String)
  | sysvar (s : SysvarTy)
  | accountInfo
  | loader (account_ident : String)

/-- `ident_string`: the field type must be a path with exactly one
segment; returns that segment's identifier. -/
def ident_string (f : SynField) : Except String String :=
  match f.ty with
  | TypeExpr.path p =>
    match p.segments with
    | [seg] => Except.ok seg.ident
    | _ => Except.error "assertion failed: path.segments.len() == 1"
  | TypeExpr.other => Except.error "invalid account syntax"

/-- The seven recognized primitive wrapper names, in source order. -/
def isPrimitiveName (s : String) : Bool :=
  s == "ProgramState" || s == "ProgramAccount" || s == "CpiAccount" || s == "Sysvar" ||
    s == "AccountInfo" || s == "CpiState" || s == "Loader"

/-- `is_field_primitive`. -/
def is_field_primitive (f : SynField) : Except String Bool :=
  (ident_string f).map isPrimitiveName

/-- `parse_account`: extract the resolved resource identifier from the
wrapper's angle-bracketed arguments `(lifetime, T)`. -/
def parse_account (path : Path) : Except String String :=
  match path.segments with
  | seg :: _ =>
    match seg.arguments with
    | PathArguments.angleBracketed args =>
      match args with
      | [_, GenericArg.typePath segs] =>
        match segs with
        | [ident] => Except.ok ident
        | _ => Except.error "assertion failed: ty_path.path.segments.len() == 1"
      | [_, _] => Except.error "Invalid ProgramAccount"
      | _ => Except.error "assertion failed: args.args.len() == 2"
    | _ => Except.error "Invalid ProgramAccount"
  | [] => Except.error "index out of bounds"

/-- The table mapping a resolved identifier to a `SysvarTy`, one `if`
per arm of the source `match`. -/
def sysvarTyOfString (s : String) : Except String SysvarTy :=
  if s = "Clock" then Except.ok SysvarTy.clock
  else if s = "Rent" then Except.ok SysvarTy.rent
  else if s = "EpochSchedule" then Except.ok SysvarTy.epochSchedule
  else if s = "Fees" then Except.ok SysvarTy.fees
  else if s = "RecentBlockhashes" then Except.ok SysvarTy.recentBlockhashes
  else if s = "SlotHashes" then Except.ok SysvarTy.slotHashes
  else if s = "SlotHistory" then Except.ok SysvarTy.slotHistory
  else if s = "StakeHistory" then Except.ok SysvarTy.stakeHistory
  else if s = "Instructions" then Except.ok SysvarTy.instructions
  else if s = "Rewards" then Except.ok SysvarTy.rewards
  else Except.error "Invalid Sysvar"

/-- `parse_sysvar`: same extraction as `parse_account` but with the
`Invalid Sysvar` messages, followed by the fixed identifier table. -/
def parse_sysvar (path : Path) : Except String SysvarTy :=
  match path.segments with
  | seg :: _ =>
    match seg.arguments with
    | PathArguments.angleBracketed args =>
      match args with
      | [_, GenericArg.typePath segs] =>
        match segs with
        | [ident] => sysvarTyOfString ident
        | _ => Except.error "assertion failed: ty_path.path.segments.len() == 1"
      | [_, _] => Except.error "Invalid Sysvar"
      | _ => Except.error "assertion failed: args.args.len() == 2"
    | _ => Except.error "Invalid Sysvar"
  | [] => Except.error "index out of bounds"

/-- `parse_ty`: dispatch on the field's leading type identifier. -/
def parse_ty (f : SynField) : Except String Ty :=
  match f.ty with
  | TypeExpr.path p =>
    match ident_string f with
    | Except.error e => Except.error e
    | Except.ok name =>
      if name = "ProgramState" then (parse_account p).map Ty.programState
      else if name = "CpiState" then (parse_account p).map Ty.cpiState
      else if name = "ProgramAccount" then (parse_account p).map Ty.programAccount
      else if name = "CpiAccount" then (parse_account p).map Ty.cpiAccount
      else if name = "Sysvar" then (parse_sysvar p).map Ty.sysvar
      else if name = "AccountInfo" then Except.ok Ty.accountInfo
      else if name = "Loader" then (parse_account p).map Ty.loader
      else Except.error "invalid account type"
  | TypeExpr.other => Except.error "invalid account syntax"

/-- The `Field` AST node (named `ParsedField` here because `Field` is
taken by Mathlib; fields match the Rust struct one for one). -/
structure ParsedField where
  ident : String
  ty : Ty
  constraints : List Constraint
  is_mut : Bool
  is_signer : Bool
  is_init : Bool
  payer : Option String
  space : Option String
  associated_seeds : List String

/-- The `CompositeField` AST node. -/
structure CompositeField where
  ident : String
  symbol : String
  constraints : List Constraint
  raw_field : SynField

/-- The `AccountField` enum. -/
inductive AccountField where
  | field (f : ParsedField)
  | accountsStruct (c : CompositeField)

/-- The filter predicate of `parse_account_attr`: the attribute path
must be the single segment `account`. -/
def is_account_attr (attr : Attribute) : Bool :=
  match attr.pathSegments with
  | [i] => i == "account"
  | _ => false

/-- `parse_account_attr`: zero or one `account` attribute, with a
fatal error naming the requirement otherwise. -/
def parse_account_attr (f : SynField) : Except String (Option Attribute) :=
  match f.attrs.filter is_account_attr with
  | [] => Except.ok none
  | [a] => Except.ok (some a)
  | _ => Except.error "Invalid syntax: please specify one account attribute."

/-- The default `parse_constraints` result used when the field carries
no annotation. -/
def defaultConstraintsParse : ConstraintsParse :=
  { constraints := [], is_mut := false, is_signer := false, is_init := false
  , payer := none, space := none, associated_seeds := [] }

/-- `parse_field`: unwrap the field name, parse the constraints (or
take the defaults), then classify as leaf or composite. Sequencing of
the fallible calls uses `Except.bind`, mirroring the panics of the
Rust original aborting the rest of the function. -/
def parse_field (f : SynField) (anchor : Option Attribute) : Except String AccountField :=
  match f.ident with
  | none => Except.error unwrapMsg
  | some ident =>
    (match anchor with
     | none => Except.ok defaultConstraintsParse
     | some a => parse_constraints a).bind fun cp =>
    (is_field_primitive f).bind fun prim =>
    match prim with
    | true =>
      (parse_ty f).map fun ty =>
        AccountField.field
          { ident := ident, ty := ty, constraints := cp.constraints
          , is_mut := cp.is_mut, is_signer := cp.is_signer, is_init := cp.is_init
          , payer := cp.payer, space := cp.space
          , associated_seeds := cp.associated_seeds }
    | false =>
      (ident_string f).map fun symbol =>
        AccountField.accountsStruct
          { ident := ident, symbol := symbol
          , constraints := cp.constraints, raw_field := f }

/-- `parse_account_field`. -/
def parse_account_field (f : SynField) : Except String AccountField :=
  (parse_account_attr f).bind fun anchor_attr => parse_field f anchor_attr

/-- The fields of a `syn::ItemStruct`. -/
inductive StructFields where
  | named (fs : List SynField)
  | unnamed (tys : List TypeExpr)
  | unit

/-- A `syn::ItemStruct` (only the data the source reads). -/
structure ItemStruct where
  ident : String
  fields : StructFields

/-- The `AccountsStruct` result (external collaborator; modelled as
the original struct plus the parsed field list). -/
structure AccountsStruct where
  strct : ItemStruct
  fields : List AccountField

/-- The top-level `parse`: only named fields are accepted. -/
def parse (strct : ItemStruct) : Except String AccountsStruct :=
  match strct.fields with
  | StructFields.named fs =>
    (fs.mapM parse_account_field).map fun afs => { strct := strct, fields := afs }
  | _ => Except.error "invalid input"

/-- The loop invariant tying the `associated` flag, the `mut` flag and
the constraint list together: the associated flag implies the mut
flag, an `Associated` constraint implies the associated flag, and the
loop itself never emits a `RentExempt` constraint (only the normalizer
does). -/
def Inv (s : PState) : Prop :=
  (s.is_associated = true → s.is_mut = true) ∧
  (∀ t, Constraint.associated t ∈ s.constraints → s.is_associated = true) ∧
  (∀ k, Constraint.rentExempt k ∉ s.constraints)

/-- The keywords that require a `=` and a value token. -/
def valueKeywords : List String :=
  ["seeds", "belongs_to", "has_one", "owner", "state", "associated", "with", "payer", "space"]

/-- The kind of value token each value-bearing keyword expects: a
group for `seeds`, a literal for `space`, an identifier otherwise. -/
def expectedValueKind (kw : String) (t : TokenTree) : Bool :=
  if kw = "seeds" then
    match t with
    | TokenTree.group _ => true
    | _ => false
  else if kw = "space" then
    match t with
    | TokenTree.lit _ => true
    | _ => false
  else
    match t with
    | TokenTree.ident _ => true
    | _ => false

/-- The identifiers recognized by the sysvar table, in source order. -/
def sysvarNames : List String :=
  ["Clock", "Rent", "EpochSchedule", "Fees", "RecentBlockhashes", "SlotHashes",
   "SlotHistory", "StakeHistory", "Instructions", "Rewards"]

/-- A sysvar wrapper path `Sysvar` applied to a lifetime and the bare
identifier `s`, the shape the resolver expects. -/
def sysvarWrapPath (s : String) : Path :=
  { segments := [{ ident := "Sysvar"
                 , arguments := PathArguments.angleBracketed
                     [GenericArg.lifetime, GenericArg.typePath [s]] }] }

/-- The outcome, per recognized sysvar name, of resolving that name. -/
def sysvarAccepted : List Bool :=
  sysvarNames.map fun s =>
    match parse_sysvar (sysvarWrapPath s) with
    | Except.ok _ => true
    | Except.error _ => false

/-- The annotation `#[account(init, associated = foo)]`. -/
def attrAssocInit : Attribute :=
  { pathSegments := ["account"]
  , tokens := [TokenTree.group [TokenTree.ident "init", TokenTree.punct ','
      , TokenTree.ident "associated", TokenTree.punct '=', TokenTree.ident "foo"]] }

/-- The seven recognized wrapper type names. -/
def wrapperNames : List String :=
  ["ProgramState", "ProgramAccount", "CpiAccount", "Sysvar", "AccountInfo", "CpiState", "Loader"]

/-- An empty `#[account()]` annotation. -/
def attrEmptyGroup : Attribute :=
  { pathSegments := ["account"], tokens := [TokenTree.group []] }

/-- The annotation `#[account(mut, payer = p)]`. -/
def attrMutPayer : Attribute :=
  { pathSegments := ["account"]
  , tokens := [TokenTree.group [TokenTree.ident "mut", TokenTree.punct ','
      , TokenTree.ident "payer", TokenTree.punct '=', TokenTree.ident "p"]] }

/-- A field of unrecognized (composite) type `Foo`, no annotation. -/
def fieldFoo : SynField :=
  { ident := some "f"
  , ty := TypeExpr.path { segments := [{ ident := "Foo", arguments := PathArguments.noArgs }] }
  , attrs := [] }

/-- A field of type `AccountInfo`, no annotation. -/
def fieldPlain : SynField :=
  { ident := some "acc"
  , ty := TypeExpr.path
      { segments := [{ ident := "AccountInfo", arguments := PathArguments.noArgs }] }
  , attrs := [] }

/-- A field carrying two `account` annotations. -/
def fieldTwoAttrs : SynField :=
  { ident := some "acc"
  , ty := TypeExpr.path
      { segments := [{ ident := "AccountInfo", arguments := PathArguments.noArgs }] }
  , attrs := [attrEmptyGroup, attrMutPayer] }

/-! ### Lemmas about the single-token dispatch -/

theorem eqIdentStep_sound (rest : List TokenTree) (s : PState) (k : PState → String → PState)
    (s2 : PState) (rest2 : List TokenTree) (h : eqIdentStep rest s k = Except.ok (s2, rest2)) :
    ∃ v rest3, rest = TokenTree.punct '=' :: TokenTree.ident v :: rest3 ∧
      rest2 = rest3 ∧ s2 = k s v := by
  unfold eqIdentStep at h
  repeat' split at h
  all_goals simp_all
  all_goals exact ⟨_, rest2, ⟨rfl, rfl⟩, rfl, h.1.symm⟩

theorem eqGroupStep_sound (rest : List TokenTree) (s : PState)
    (k : PState → List TokenTree → PState) (s2 : PState) (rest2 : List TokenTree)
    (h : eqGroupStep rest s k = Except.ok (s2, rest2)) :
    ∃ g rest3, rest = TokenTree.punct '=' :: TokenTree.group g :: rest3 ∧
      rest2 = rest3 ∧ s2 = k s g := by
  unfold eqGroupStep at h
  repeat' split at h
  all_goals simp_all
  all_goals exact ⟨_, rest2, ⟨rfl, rfl⟩, rfl, h.1.symm⟩

theorem eqLitStep_sound (rest : List TokenTree) (s : PState)
    (k : PState → String → Except String PState)
    (s2 : PState) (rest2 : List TokenTree) (h : eqLitStep rest s k = Except.ok (s2, rest2)) :
    ∃ l rest3, rest = TokenTree.punct '=' :: TokenTree.lit l :: rest3 ∧
      rest2 = rest3 ∧ k s l = Except.ok s2 := by
  unfold eqLitStep at h
  repeat' split at h
  all_goals first
    | exact Except.noConfusion h
    | (rename_i heq
       simp only [Except.ok.injEq, Prod.mk.injEq] at h
       obtain ⟨h1, h2⟩ := h
       subst_vars
       exact ⟨_, _, rfl, rfl, heq⟩)

theorem rentExemptStep_sound (rest : List TokenTree) (s : PState) (s2 : PState)
    (rest2 : List TokenTree) (h : rentExemptStep rest s = Except.ok (s2, rest2)) :
    (rest = [] ∧ rest2 = [] ∧ s2 = { s with is_rent_exempt := some true }) ∨
    (∃ rest3, rest = TokenTree.punct '=' :: TokenTree.ident "skip" :: rest3 ∧
      rest2 = rest3 ∧ s2 = { s with is_rent_exempt := some false }) := by
  unfold rentExemptStep at h
  repeat' split at h
  all_goals simp_all

/-- Full characterization of a successful identifier dispatch: one
disjunct per keyword arm. -/
theorem stepIdent_sound (i : String) (rest : List TokenTree) (s : PState) (s2 : PState)
    (rest2 : List TokenTree) (h : stepIdent i rest s = Except.ok (s2, rest2)) :
    (i = "init" ∧ rest2 = rest ∧
      s2 = { s with is_init := true, is_mut := true
                  , is_rent_exempt :=
                      if s.is_rent_exempt.isNone then some true else s.is_rent_exempt }) ∨
    (i = "mut" ∧ rest2 = rest ∧ s2 = { s with is_mut := true }) ∨
    (i = "signer" ∧ rest2 = rest ∧
      s2 = { s with is_signer := true, constraints := s.constraints ++ [Constraint.signer] }) ∨
    (i = "seeds" ∧ ∃ g, rest = TokenTree.punct '=' :: TokenTree.group g :: rest2 ∧
      s2 = { s with constraints := s.constraints ++ [Constraint.seeds g] }) ∨
    ((i = "belongs_to" ∨ i = "has_one") ∧ ∃ v,
      rest = TokenTree.punct '=' :: TokenTree.ident v :: rest2 ∧
      s2 = { s with constraints := s.constraints ++ [Constraint.belongsTo v] }) ∨
    (i = "owner" ∧ ∃ v, rest = TokenTree.punct '=' :: TokenTree.ident v :: rest2 ∧
      s2 = { s with constraints := s.constraints ++ [Constraint.owner v] }) ∨
    (i = "rent_exempt" ∧
      ((rest = [] ∧ rest2 = [] ∧ s2 = { s with is_rent_exempt := some true }) ∨
       (rest = TokenTree.punct '=' :: TokenTree.ident "skip" :: rest2 ∧
        s2 = { s with is_rent_exempt := some false }))) ∨
    (i = "executable" ∧ rest2 = rest ∧
      s2 = { s with constraints := s.constraints ++ [Constraint.executable] }) ∨
    (i = "state" ∧ ∃ v, rest = TokenTree.punct '=' :: TokenTree.ident v :: rest2 ∧
      s2 = { s with constraints := s.constraints ++ [Constraint.state v] }) ∨
    (i = "associated" ∧ ∃ v, rest = TokenTree.punct '=' :: TokenTree.ident v :: rest2 ∧
      s2 = { s with is_associated := true, is_mut := true
                  , constraints := s.constraints ++ [Constraint.associated v] }) ∨
    (i = "with" ∧ ∃ v, rest = TokenTree.punct '=' :: TokenTree.ident v :: rest2 ∧
      s2 = { s with associated_seeds := s.associated_seeds ++ [v] }) ∨
    (i = "payer" ∧ ∃ v, rest = TokenTree.punct '=' :: TokenTree.ident v :: rest2 ∧
      s2 = { s with payer := some v }) ∨
    (i = "space" ∧ ∃ l text, rest = TokenTree.punct '=' :: TokenTree.lit l :: rest2 ∧
      reparseLiteral l = Except.ok text ∧ s2 = { s with space := some text }) := by
  unfold stepIdent at h
  by_cases h1 : i = "init"
  case pos =>
    rw [if_pos h1, Except.ok.injEq, Prod.mk.injEq] at h
    exact Or.inl ⟨h1, h.2.symm, h.1.symm⟩
  rw [if_neg h1] at h
  by_cases h2 : i = "mut"
  case pos =>
    rw [if_pos h2, Except.ok.injEq, Prod.mk.injEq] at h
    exact Or.inr (Or.inl ⟨h2, h.2.symm, h.1.symm⟩)
  rw [if_neg h2] at h
  by_cases h3 : i = "signer"
  case pos =>
    rw [if_pos h3, Except.ok.injEq, Prod.mk.injEq] at h
    exact Or.inr (Or.inr (Or.inl ⟨h3, h.2.symm, h.1.symm⟩))
  rw [if_neg h3] at h
  by_cases h4 : i = "seeds"
  case pos =>
    rw [if_pos h4] at h
    obtain ⟨g, rest3, hrest, hr2, hs2⟩ := eqGroupStep_sound _ _ _ _ _ h
    subst hr2
    exact Or.inr (Or.inr (Or.inr (Or.inl ⟨h4, g, hrest, hs2⟩)))
  rw [if_neg h4] at h
  by_cases h5 : i = "belongs_to" ∨ i = "has_one"
  case pos =>
    rw [if_pos h5] at h
    obtain ⟨v, rest3, hrest, hr2, hs2⟩ := eqIdentStep_sound _ _ _ _ _ h
    subst hr2
    exact Or.inr (Or.inr (Or.inr (Or.inr (Or.inl ⟨h5, v, hrest, hs2⟩))))
  rw [if_neg h5] at h
  by_cases h6 : i = "owner"
  case pos =>
    rw [if_pos h6] at h
    obtain ⟨v, rest3, hrest, hr2, hs2⟩ := eqIdentStep_sound _ _ _ _ _ h
    subst hr2
    exact Or.inr (Or.inr (Or.inr (Or.inr (Or.inr (Or.inl ⟨h6, v, hrest, hs2⟩)))))
  rw [if_neg h6] at h
  by_cases h7 : i = "rent_exempt"
  case pos =>
    rw [if_pos h7] at h
    rcases rentExemptStep_sound _ _ _ _ h with ⟨hA, hB, hs2⟩ | ⟨rest3, hrest, hr2, hs2⟩
    · exact Or.inr (Or.inr (Or.inr (Or.inr (Or.inr (Or.inr (Or.inl
        ⟨h7, Or.inl ⟨hA, hB, hs2⟩⟩))))))
    · subst hr2
      exact Or.inr (Or.inr (Or.inr (Or.inr (Or.inr (Or.inr (Or.inl
        ⟨h7, Or.inr ⟨hrest, hs2⟩⟩))))))
  rw [if_neg h7] at h
  by_cases h8 : i = "executable"
  case pos =>
    rw [if_pos h8, Except.ok.injEq, Prod.mk.injEq] at h
    exact Or.inr (Or.inr (Or.inr (Or.inr (Or.inr (Or.inr (Or.inr (Or.inl
      ⟨h8, h.2.symm, h.1.symm⟩)))))))
  rw [if_neg h8] at h
  by_cases h9 : i = "state"
  case pos =>
    rw [if_pos h9] at h
    obtain ⟨v, rest3, hrest, hr2, hs2⟩ := eqIdentStep_sound _ _ _ _ _ h
    subst hr2
    exact Or.inr (Or.inr (Or.inr (Or.inr (Or.inr (Or.inr (Or.inr (Or.inr (Or.inl
      ⟨h9, v, hrest, hs2⟩))))))))
  rw [if_neg h9] at h
  by_cases h10 : i = "associated"
  case pos =>
    rw [if_pos h10] at h
    obtain ⟨v, rest3, hrest, hr2, hs2⟩ := eqIdentStep_sound _ _ _ _ _ h
    subst hr2
    exact Or.inr (Or.inr (Or.inr (Or.inr (Or.inr (Or.inr (Or.inr (Or.inr (Or.inr (Or.inl
      ⟨h10, v, hrest, hs2⟩)))))))))
  rw [if_neg h10] at h
  by_cases h11 : i = "with"
  case pos =>
    rw [if_pos h11] at h
    obtain ⟨v, rest3, hrest, hr2, hs2⟩ := eqIdentStep_sound _ _ _ _ _ h
    subst hr2
    exact Or.inr (Or.inr (Or.inr (Or.inr (Or.inr (Or.inr (Or.inr (Or.inr (Or.inr (Or.inr
      (Or.inl ⟨h11, v, hrest, hs2⟩))))))))))
  rw [if_neg h11] at h
  by_cases h12 : i = "payer"
  case pos =>
    rw [if_pos h12] at h
    obtain ⟨v, rest3, hrest, hr2, hs2⟩ := eqIdentStep_sound _ _ _ _ _ h
    subst hr2
    exact Or.inr (Or.inr (Or.inr (Or.inr (Or.inr (Or.inr (Or.inr (Or.inr (Or.inr (Or.inr
      (Or.inr (Or.inl ⟨h12, v, hrest, hs2⟩)))))))))))
  rw [if_neg h12] at h
  by_cases h13 : i = "space"
  case pos =>
    rw [if_pos h13] at h
    obtain ⟨l, rest3, hrest, hr2, hk⟩ := eqLitStep_sound _ _ _ _ _ h
    subst hr2
    cases hre : reparseLiteral l with
    | error e => rw [hre] at hk; exact absurd hk (by simp [Except.map])
    | ok text =>
      rw [hre] at hk
      simp only [Except.map, Except.ok.injEq] at hk
      exact Or.inr (Or.inr (Or.inr (Or.inr (Or.inr (Or.inr (Or.inr (Or.inr (Or.inr (Or.inr
        (Or.inr (Or.inr ⟨h13, l, text, hrest, hre, hk.symm⟩)))))))))))
  rw [if_neg h13] at h
  exact absurd h (by simp)

/-- The space dispatch after its two consumed tokens, when the
literal re-lexes: the loop continues with the space recorded. -/
theorem stepIdent_space_ok (l text : String) (rest3 : List TokenTree) (s : PState)
    (hre : reparseLiteral l = Except.ok text) :
    stepIdent "space" (TokenTree.punct '=' :: TokenTree.lit l :: rest3) s =
      Except.ok ({ s with space := some text }, rest3) := by
  have h0 : stepIdent "space" (TokenTree.punct '=' :: TokenTree.lit l :: rest3) s =
      eqLitStep (TokenTree.punct '=' :: TokenTree.lit l :: rest3) s
        (fun s l => (reparseLiteral l).map fun text => { s with space := some text }) := rfl
  rw [h0]
  unfold eqLitStep
  simp [hre, Except.map]

/-- The space dispatch after its two consumed tokens, when the
literal does not re-lex: the unwrap panic aborts the parse. -/
theorem stepIdent_space_err (l e : String) (rest3 : List TokenTree) (s : PState)
    (hre : reparseLiteral l = Except.error e) :
    stepIdent "space" (TokenTree.punct '=' :: TokenTree.lit l :: rest3) s =
      Except.error e := by
  have h0 : stepIdent "space" (TokenTree.punct '=' :: TokenTree.lit l :: rest3) s =
      eqLitStep (TokenTree.punct '=' :: TokenTree.lit l :: rest3) s
        (fun s l => (reparseLiteral l).map fun text => { s with space := some text }) := rfl
  rw [h0]
  unfold eqLitStep
  simp [hre, Except.map]

/-- Each dispatch leaves the unconsumed remainder either untouched or
minus exactly the two value tokens. -/
theorem step_shape (t : TokenTree) (rest : List TokenTree) (s : PState) (s2 : PState)
    (rest2 : List TokenTree) (h : step t rest s = Except.ok (s2, rest2)) :
    rest2 = rest ∨ ∃ a b, rest = a :: b :: rest2 := by
  cases t with
  | ident i =>
    simp only [step] at h
    rcases stepIdent_sound _ _ _ _ _ h with
      ⟨_, hr, _⟩ | ⟨_, hr, _⟩ | ⟨_, hr, _⟩ | ⟨_, g, hr, _⟩ | ⟨_, v, hr, _⟩ | ⟨_, v, hr, _⟩ |
      ⟨_, ⟨hA, hB, _⟩ | ⟨hr, _⟩⟩ | ⟨_, hr, _⟩ | ⟨_, v, hr, _⟩ | ⟨_, v, hr, _⟩ |
      ⟨_, v, hr, _⟩ | ⟨_, v, hr, _⟩ | ⟨_, l, text, hr, _, _⟩
    all_goals first
      | exact Or.inl hr
      | exact Or.inr ⟨_, _, hr⟩
      | exact Or.inl (by simp [hA, hB])
  | punct c =>
    simp only [step] at h
    split at h
    · exact Or.inl (by simp_all)
    · exact absurd h (by simp)
  | lit l =>
    simp only [step] at h
    cases hre : reparseLiteral l with
    | error e => rw [hre] at h; exact Except.noConfusion h
    | ok text =>
      rw [hre] at h
      exact Or.inl (by simp_all)
  | group g =>
    exact absurd h (by simp [step])

/-! ### Lemmas about the loop driver -/

/-- Any fuel at least the stream length computes the loop. -/
theorem runAux_fuel (fuel : Nat) : ∀ ts s, ts.length ≤ fuel → runAux fuel ts s = run ts s := by
  induction fuel using Nat.strong_induction_on with
  | _ fuel ih =>
    intro ts s hlen
    cases ts with
    | nil => cases fuel with | zero => rfl | succ n => rfl
    | cons t rest =>
    match fuel, hlen with
    | fuel + 1, hlen =>
      show (match step t rest s with
            | Except.error e => Except.error e
            | Except.ok (s2, rest2) => runAux fuel rest2 s2) =
           (match step t rest s with
            | Except.error e => Except.error e
            | Except.ok (s2, rest2) => runAux rest.length rest2 s2)
      cases hstep : step t rest s with
      | error e => rfl
      | ok p =>
        obtain ⟨s2, rest2⟩ := p
        have hshape := step_shape t rest s s2 rest2 hstep
        have hr2 : rest2.length ≤ rest.length := by
          rcases hshape with rfl | ⟨a, b, hab⟩
          · exact le_refl _
          · simp [hab]; omega
        have hrest : rest.length ≤ fuel := by simp at hlen; omega
        simp only []
        rw [ih fuel (Nat.lt_succ_self _) rest2 s2 (le_trans hr2 hrest)]
        rw [ih rest.length (Nat.lt_succ_of_le hrest) rest2 s2 hr2]

/-- The loop on the empty stream. -/
theorem run_nil (s : PState) : run [] s = Except.ok s := rfl

/-- The one-step unfolding of the loop. -/
theorem run_cons (t : TokenTree) (rest : List TokenTree) (s : PState) :
    run (t :: rest) s =
      match step t rest s with
      | Except.error e => Except.error e
      | Except.ok (s2, rest2) => run rest2 s2 := by
  show (match step t rest s with
        | Except.error e => Except.error e
        | Except.ok (s2, rest2) => runAux rest.length rest2 s2) = _
  cases hstep : step t rest s with
  | error e => rfl
  | ok p =>
    obtain ⟨s2, rest2⟩ := p
    have hr2 : rest2.length ≤ rest.length := by
      rcases step_shape t rest s s2 rest2 hstep with rfl | ⟨a, b, hab⟩
      · exact le_refl _
      · simp [hab]; omega
    simpa using runAux_fuel rest.length rest2 s2 hr2

/-- Strong induction principle matching the loop's consumption: the
inductive hypothesis covers every stream no longer than the tail. -/
theorem run_induction (P : List TokenTree → PState → Prop)
    (hnil : ∀ s, P [] s)
    (hcons : ∀ t rest s, (∀ rest2 s2, rest2.length ≤ rest.length → P rest2 s2) →
      P (t :: rest) s) :
    ∀ ts s, P ts s := by
  have key : ∀ n ts s, List.length ts ≤ n → P ts s := by
    intro n
    induction n with
    | zero =>
      intro ts s hlen
      cases ts with
      | nil => exact hnil s
      | cons t rest => simp at hlen
    | succ n ih =>
      intro ts s hlen
      cases ts with
      | nil => exact hnil s
      | cons t rest =>
        refine hcons t rest s fun rest2 s2 h2 => ih rest2 s2 ?_
        simp at hlen
        omega
  exact fun ts s => key ts.length ts s (le_refl _)

/-! ### The loop invariant -/

/-- A successful dispatch preserves the loop invariant. -/
theorem step_inv (t : TokenTree) (rest : List TokenTree) (s : PState) (s2 : PState)
    (rest2 : List TokenTree) (h : step t rest s = Except.ok (s2, rest2)) (hs : Inv s) :
    Inv s2 := by
  obtain ⟨i1, i2, i3⟩ := hs
  cases t with
  | ident i =>
    simp only [step] at h
    rcases stepIdent_sound _ _ _ _ _ h with
      ⟨_, _, rfl⟩ | ⟨_, _, rfl⟩ | ⟨_, _, rfl⟩ | ⟨_, g, _, rfl⟩ | ⟨_, v, _, rfl⟩ |
      ⟨_, v, _, rfl⟩ | ⟨_, ⟨_, _, rfl⟩ | ⟨_, rfl⟩⟩ | ⟨_, _, rfl⟩ | ⟨_, v, _, rfl⟩ |
      ⟨_, v, _, rfl⟩ | ⟨_, v, _, rfl⟩ | ⟨_, v, _, rfl⟩ | ⟨_, l, text, _, _, rfl⟩
    all_goals
      refine ⟨fun ha => ?_, fun t ht => ?_, fun k hk => ?_⟩ <;>
        simp_all [List.mem_append] <;>
        first
          | exact i1 ha
          | exact i2 _ ht
  | punct c =>
    simp only [step] at h
    split at h
    · simp only [Except.ok.injEq, Prod.mk.injEq] at h
      exact h.1 ▸ ⟨i1, i2, i3⟩
    · exact absurd h (by simp)
  | lit l =>
    simp only [step] at h
    cases hre : reparseLiteral l with
    | error e => rw [hre] at h; exact Except.noConfusion h
    | ok text =>
    rw [hre] at h
    simp only [Except.ok.injEq, Prod.mk.injEq] at h
    obtain ⟨h1, _⟩ := h
    subst h1
    refine ⟨i1, ?_, ?_⟩
    · intro t ht
      rcases List.mem_append.mp ht with hmem | hmem
      · exact i2 t hmem
      · simp at hmem
    · intro k hk
      rcases List.mem_append.mp hk with hmem | hmem
      · exact i3 k hmem
      · simp at hmem
  | group g =>
    exact absurd h (by simp [step])

/-- A successful loop run preserves the invariant. -/
theorem run_ok_inv : ∀ ts s, ∀ s2, run ts s = Except.ok s2 → Inv s → Inv s2 := by
  refine run_induction (fun ts s => ∀ s2, run ts s = Except.ok s2 → Inv s → Inv s2) ?_ ?_
  · intro s s2 h hs
    rw [run_nil] at h
    cases h
    exact hs
  · intro t rest s ih s2 h hs
    rw [run_cons] at h
    cases hstep : step t rest s with
    | error e => rw [hstep] at h; cases h
    | ok p =>
      obtain ⟨s1, rest2⟩ := p
      rw [hstep] at h
      have hlen : rest2.length ≤ rest.length := by
        rcases step_shape t rest s s1 rest2 hstep with rfl | ⟨a, b, hab⟩
        · exact le_refl _
        · simp [hab]; omega
      exact ih rest2 s1 hlen s2 h (step_inv t rest s s1 rest2 hstep hs)

/-! ### Appending further tokens to a stream -/

/-- A dispatch of a token other than `rent_exempt` never looks past
the tokens it consumes, so appending further tokens commutes with it.
(`rent_exempt` is excluded because its bare form is recognized only at
the very end of the stream.) -/
theorem step_append (t : TokenTree) (rest : List TokenTree) (s : PState) (s2 : PState)
    (rest2 : List TokenTree) (ex : List TokenTree)
    (hne : t ≠ TokenTree.ident "rent_exempt")
    (h : step t rest s = Except.ok (s2, rest2)) :
    step t (rest ++ ex) s = Except.ok (s2, rest2 ++ ex) := by
  cases t with
  | ident i =>
    simp only [step] at h ⊢
    have hi : i ≠ "rent_exempt" := fun hh => hne (by rw [hh])
    rcases stepIdent_sound _ _ _ _ _ h with
      ⟨hk, rfl, rfl⟩ | ⟨hk, rfl, rfl⟩ | ⟨hk, rfl, rfl⟩ | ⟨hk, g, hrest, rfl⟩ |
      ⟨hk, v, hrest, rfl⟩ | ⟨hk, v, hrest, rfl⟩ | ⟨hk, hre⟩ | ⟨hk, rfl, rfl⟩ |
      ⟨hk, v, hrest, rfl⟩ | ⟨hk, v, hrest, rfl⟩ | ⟨hk, v, hrest, rfl⟩ |
      ⟨hk, v, hrest, rfl⟩ | ⟨hk, l, text, hrest, hlex, rfl⟩
    all_goals first
      | exact absurd hk hi
      | (subst hk; rfl)
      | (subst hrest
         rcases hk with rfl | rfl <;> rfl)
      | (subst hrest hk
         exact stepIdent_space_ok l text (rest2 ++ ex) s hlex)
  | punct c =>
    simp only [step] at h ⊢
    split at h
    · simp only [Except.ok.injEq, Prod.mk.injEq] at h
      obtain ⟨rfl, rfl⟩ := h
      simp only [if_pos ‹c = ','›]
    · exact absurd h (by simp)
  | lit l =>
    simp only [step] at h ⊢
    cases hre : reparseLiteral l with
    | error e => rw [hre] at h; exact Except.noConfusion h
    | ok text =>
      rw [hre] at h
      simp only [Except.ok.injEq, Prod.mk.injEq] at h
      obtain ⟨rfl, rfl⟩ := h
      rfl
  | group g =>
    exact absurd h (by simp [step])

/-- Running a stream that contains no `rent_exempt` identifier, then
appending further tokens, continues from the state the stream reached. -/
theorem run_append : ∀ ts s, ∀ s2 ex, run ts s = Except.ok s2 →
    TokenTree.ident "rent_exempt" ∉ ts → run (ts ++ ex) s = run ex s2 := by
  refine run_induction
    (fun ts s => ∀ s2 ex, run ts s = Except.ok s2 →
      TokenTree.ident "rent_exempt" ∉ ts → run (ts ++ ex) s = run ex s2) ?_ ?_
  · intro s s2 ex h _
    rw [run_nil] at h
    cases h
    rfl
  · intro t rest s ih s2 ex h hni
    have hnt : t ≠ TokenTree.ident "rent_exempt" := fun hh => hni (hh ▸ List.mem_cons_self t rest)
    have hnrest : TokenTree.ident "rent_exempt" ∉ rest := fun hh => hni (List.mem_cons_of_mem t hh)
    rw [run_cons] at h
    cases hstep : step t rest s with
    | error e => rw [hstep] at h; cases h
    | ok p =>
      obtain ⟨s1, rest2⟩ := p
      rw [hstep] at h
      have hshape := step_shape t rest s s1 rest2 hstep
      have hlen : rest2.length ≤ rest.length := by
        rcases hshape with rfl | ⟨a, b, hab⟩
        · exact le_refl _
        · simp [hab]; omega
      have hsub : TokenTree.ident "rent_exempt" ∉ rest2 := by
        intro hmem
        rcases hshape with rfl | ⟨a, b, hab⟩
        · exact hnrest hmem
        · exact hnrest (hab ▸ List.mem_cons_of_mem a (List.mem_cons_of_mem b hmem))
      calc run ((t :: rest) ++ ex) s = run (t :: (rest ++ ex)) s := rfl
        _ = run (rest2 ++ ex) s1 := by
              rw [run_cons, step_append t rest s s1 rest2 ex hnt hstep]
        _ = run ex s2 := ih rest2 s1 hlen s2 ex h hsub

/-! ### Preservation of an explicit skip -/

/-- No dispatch other than `rent_exempt` itself can change an already
set skip decision (in particular `init` only sets enforce when the
decision is still unset). -/
theorem step_rent_skip (t : TokenTree) (rest : List TokenTree) (s : PState) (s2 : PState)
    (rest2 : List TokenTree) (hne : t ≠ TokenTree.ident "rent_exempt")
    (h : step t rest s = Except.ok (s2, rest2))
    (hs : s.is_rent_exempt = some false) : s2.is_rent_exempt = some false := by
  cases t with
  | ident i =>
    simp only [step] at h
    have hi : i ≠ "rent_exempt" := fun hh => hne (by rw [hh])
    rcases stepIdent_sound _ _ _ _ _ h with
      ⟨hk, _, rfl⟩ | ⟨hk, _, rfl⟩ | ⟨hk, _, rfl⟩ | ⟨hk, g, _, rfl⟩ |
      ⟨hk, v, _, rfl⟩ | ⟨hk, v, _, rfl⟩ | ⟨hk, _⟩ | ⟨hk, _, rfl⟩ |
      ⟨hk, v, _, rfl⟩ | ⟨hk, v, _, rfl⟩ | ⟨hk, v, _, rfl⟩ |
      ⟨hk, v, _, rfl⟩ | ⟨hk, l, text, _, _, rfl⟩
    all_goals first
      | exact absurd hk hi
      | simp_all
  | punct c =>
    simp only [step] at h
    split at h
    · simp only [Except.ok.injEq, Prod.mk.injEq] at h
      exact h.1 ▸ hs
    · exact absurd h (by simp)
  | lit l =>
    simp only [step] at h
    cases hre : reparseLiteral l with
    | error e => rw [hre] at h; exact Except.noConfusion h
    | ok text =>
      rw [hre] at h
      simp only [Except.ok.injEq, Prod.mk.injEq] at h
      exact h.1 ▸ hs
  | group g =>
    exact absurd h (by simp [step])

/-- A successful run of a stream free of the `rent_exempt` identifier
preserves an explicit skip decision. -/
theorem run_rent_skip : ∀ ts s, ∀ s2, run ts s = Except.ok s2 →
    TokenTree.ident "rent_exempt" ∉ ts →
    s.is_rent_exempt = some false → s2.is_rent_exempt = some false := by
  refine run_induction
    (fun ts s => ∀ s2, run ts s = Except.ok s2 →
      TokenTree.ident "rent_exempt" ∉ ts →
      s.is_rent_exempt = some false → s2.is_rent_exempt = some false) ?_ ?_
  · intro s s2 h _ hs
    rw [run_nil] at h
    cases h
    exact hs
  · intro t rest s ih s2 h hni hs
    have hnt : t ≠ TokenTree.ident "rent_exempt" := fun hh => hni (hh ▸ List.mem_cons_self t rest)
    rw [run_cons] at h
    cases hstep : step t rest s with
    | error e => rw [hstep] at h; cases h
    | ok p =>
      obtain ⟨s1, rest2⟩ := p
      rw [hstep] at h
      have hshape := step_shape t rest s s1 rest2 hstep
      have hlen : rest2.length ≤ rest.length := by
        rcases hshape with rfl | ⟨a, b, hab⟩
        · exact le_refl _
        · simp [hab]; omega
      have hsub : TokenTree.ident "rent_exempt" ∉ rest2 := by
        intro hmem
        refine hni (List.mem_cons_of_mem t ?_)
        rcases hshape with rfl | ⟨a, b, hab⟩
        · exact hmem
        · exact hab ▸ List.mem_cons_of_mem a (List.mem_cons_of_mem b hmem)
      exact ih rest2 s1 hlen s2 h hsub (step_rent_skip t rest s s1 rest2 hnt hstep hs)

/-! ### The normalizer and the attribute wrapper -/

theorem initial_inv : Inv initialPState := by
  refine ⟨?_, ?_, ?_⟩ <;> simp [initialPState, Inv]

theorem parse_inner_ok (ts : List TokenTree) (r : ConstraintsParse)
    (h : parse_constraints_inner ts = Except.ok r) :
    ∃ sf, run ts initialPState = Except.ok sf ∧ r = finishConstraints sf := by
  unfold parse_constraints_inner at h
  cases hrun : run ts initialPState with
  | error e => rw [hrun] at h; simp [Except.map] at h
  | ok sf =>
    rw [hrun] at h
    simp only [Except.map, Except.ok.injEq] at h
    exact ⟨sf, rfl, h.symm⟩

theorem finish_constraints_cases (s : PState) :
    (finishConstraints s).constraints = s.constraints ∨
    ∃ k, (finishConstraints s).constraints = s.constraints ++ [Constraint.rentExempt k] := by
  unfold finishConstraints
  rcases hre : s.is_rent_exempt with _ | b
  · exact Or.inl rfl
  · cases b
    · exact Or.inr ⟨_, rfl⟩
    · exact Or.inr ⟨_, rfl⟩

theorem finish_constraints_skip (s : PState) (h : s.is_rent_exempt = some false) :
    (finishConstraints s).constraints =
      s.constraints ++ [Constraint.rentExempt RentExemptKind.skip] := by
  unfold finishConstraints
  rw [h]

theorem finish_constraints_enforce (s : PState) (h : s.is_rent_exempt = some true) :
    (finishConstraints s).constraints =
      s.constraints ++ [Constraint.rentExempt RentExemptKind.enforce] := by
  unfold finishConstraints
  rw [h]

/-! ### Claims about the constraint tokenizer -/

/-- C4: an annotation consisting of exactly the single token `init`
parses to initialize=true, mutable=true, and exactly one constraint,
RentExempt(Enforce), appended by the normalizer. -/
theorem C4_init_alone :
    parse_constraints { pathSegments := ["account"]
                      , tokens := [TokenTree.group [TokenTree.ident "init"]] } =
      Except.ok { constraints := [Constraint.rentExempt RentExemptKind.enforce]
                , is_mut := true, is_signer := false, is_init := true
                , payer := none, space := none, associated_seeds := [] } := rfl

/-- C2: whenever a parsed annotation produced an `Associated`
constraint (the `associated` keyword was consumed as a clause), the
result has mutable=true and initialize=false, regardless of where an
`init` token appeared relative to it. -/
theorem C2_associated_cancels_init (a : Attribute) (r : ConstraintsParse) (tgt : String)
    (h : parse_constraints a = Except.ok r)
    (ha : Constraint.associated tgt ∈ r.constraints) :
    r.is_mut = true ∧ r.is_init = false := by
  unfold parse_constraints at h
  rcases htoks : a.tokens with _ | ⟨t0, tail⟩
  · rw [htoks] at h
    exact Except.noConfusion h
  rcases t0 with i | c | l | g
  case cons.ident =>
    rw [htoks] at h
    exact Except.noConfusion h
  case cons.punct =>
    rw [htoks] at h
    exact Except.noConfusion h
  case cons.lit =>
    rw [htoks] at h
    exact Except.noConfusion h
  case cons.group =>
    rw [htoks] at h
    obtain ⟨sf, hrun, hfin⟩ := parse_inner_ok g r h
    subst hfin
    have hInv : Inv sf := run_ok_inv g initialPState sf hrun initial_inv
    have hmem : Constraint.associated tgt ∈ sf.constraints := by
      rcases finish_constraints_cases sf with hc | ⟨k, hc⟩
      · rwa [hc] at ha
      · rw [hc] at ha
        rcases List.mem_append.mp ha with hm | hm
        · exact hm
        · simp at hm
    have hassoc : sf.is_associated = true := hInv.2.1 tgt hmem
    constructor
    · exact hInv.1 hassoc
    · show (if sf.is_associated then false else sf.is_init) = false
      rw [hassoc]
      rfl

/-- C2 witness: `init, associated = foo` parses with mutable=true and
initialize=false. -/
theorem C2_associated_cancels_init_witness :
    ∃ r, parse_constraints attrAssocInit =
      Except.ok r ∧ r.is_mut = true ∧ r.is_init = false := by
  have hp : parse_constraints attrAssocInit = Except.ok
      { constraints := [Constraint.associated "foo", Constraint.rentExempt RentExemptKind.enforce]
      , is_mut := true, is_signer := false, is_init := false
      , payer := none, space := none, associated_seeds := [] } := rfl
  exact ⟨_, hp, (C2_associated_cancels_init _ _ "foo" hp (by simp)).1
    , (C2_associated_cancels_init _ _ "foo" hp (by simp)).2⟩

/-- C3: an annotation whose clauses are some prefix (containing
`init`), then `rent_exempt = skip`, then further clauses none of which
mention `rent_exempt` again, parses to a constraint list ending in
exactly one RentExempt(Skip) — a later `init` never overrides the
explicit skip. -/
theorem C3_skip_wins_over_init (ts1 ts2 : List TokenTree) (s1 : PState) (r : ConstraintsParse)
    (_hinit : TokenTree.ident "init" ∈ ts1 ∨ TokenTree.ident "init" ∈ ts2)
    (h1 : run ts1 initialPState = Except.ok s1)
    (hno1 : TokenTree.ident "rent_exempt" ∉ ts1)
    (hno2 : TokenTree.ident "rent_exempt" ∉ ts2)
    (h : parse_constraints_inner (ts1 ++ TokenTree.ident "rent_exempt" ::
      TokenTree.punct '=' :: TokenTree.ident "skip" :: ts2) = Except.ok r) :
    ∃ cs, r.constraints = cs ++ [Constraint.rentExempt RentExemptKind.skip] ∧
      ∀ k, Constraint.rentExempt k ∉ cs := by
  obtain ⟨sf, hrun, hfin⟩ := parse_inner_ok _ _ h
  subst hfin
  have hInv : Inv sf := run_ok_inv _ initialPState sf hrun initial_inv
  have hskipstep : step (TokenTree.ident "rent_exempt")
      (TokenTree.punct '=' :: TokenTree.ident "skip" :: ts2) s1 =
      Except.ok ({ s1 with is_rent_exempt := some false }, ts2) := rfl
  have hchain : run (ts1 ++ TokenTree.ident "rent_exempt" ::
      TokenTree.punct '=' :: TokenTree.ident "skip" :: ts2) initialPState =
      run ts2 { s1 with is_rent_exempt := some false } := by
    rw [run_append ts1 initialPState s1 _ h1 hno1, run_cons, hskipstep]
  rw [hchain] at hrun
  have hskip : sf.is_rent_exempt = some false := run_rent_skip ts2 _ sf hrun hno2 rfl
  exact ⟨sf.constraints, finish_constraints_skip sf hskip, hInv.2.2⟩

/-- C3 witness: `init, rent_exempt = skip` ends in exactly one
RentExempt(Skip). -/
theorem C3_skip_wins_over_init_witness :
    ∃ r, parse_constraints_inner
        [TokenTree.ident "init", TokenTree.punct ',', TokenTree.ident "rent_exempt",
         TokenTree.punct '=', TokenTree.ident "skip"] = Except.ok r ∧
      ∃ cs, r.constraints = cs ++ [Constraint.rentExempt RentExemptKind.skip] ∧
        ∀ k, Constraint.rentExempt k ∉ cs := by
  refine ⟨_, rfl, ?_⟩
  exact C3_skip_wins_over_init [TokenTree.ident "init", TokenTree.punct ','] [] _ _
    (Or.inl (by simp)) rfl (by simp) (by simp) rfl

/-- C6: when `rent_exempt = skip` appears and a bare `rent_exempt`
later appears as the final token of the annotation, the unconditional
bare write wins: the tri-state is set back to enforce and the result
contains exactly one RentExempt(Enforce) constraint. -/
theorem C6_bare_rent_exempt_wins (mid : List TokenTree) (s2 : PState)
    (hmid : run mid { initialPState with is_rent_exempt := some false } = Except.ok s2)
    (hno : TokenTree.ident "rent_exempt" ∉ mid) :
    ∃ r, parse_constraints_inner (TokenTree.ident "rent_exempt" :: TokenTree.punct '=' ::
        TokenTree.ident "skip" :: (mid ++ [TokenTree.ident "rent_exempt"])) = Except.ok r ∧
      ∃ cs, r.constraints = cs ++ [Constraint.rentExempt RentExemptKind.enforce] ∧
        ∀ k, Constraint.rentExempt k ∉ cs := by
  have hInv : Inv s2 := run_ok_inv mid _ s2 hmid initial_inv
  have hlast : run [TokenTree.ident "rent_exempt"] s2 =
      Except.ok { s2 with is_rent_exempt := some true } := rfl
  have hfirst : step (TokenTree.ident "rent_exempt")
      (TokenTree.punct '=' :: TokenTree.ident "skip" :: (mid ++ [TokenTree.ident "rent_exempt"]))
      initialPState =
      Except.ok ({ initialPState with is_rent_exempt := some false }
        , mid ++ [TokenTree.ident "rent_exempt"]) := rfl
  have hchain : run (TokenTree.ident "rent_exempt" :: TokenTree.punct '=' ::
      TokenTree.ident "skip" :: (mid ++ [TokenTree.ident "rent_exempt"])) initialPState =
      Except.ok { s2 with is_rent_exempt := some true } := by
    rw [run_cons, hfirst]
    show run (mid ++ [TokenTree.ident "rent_exempt"])
      { initialPState with is_rent_exempt := some false } = _
    rw [run_append mid _ s2 _ hmid hno, hlast]
  refine ⟨finishConstraints { s2 with is_rent_exempt := some true }, ?_, s2.constraints, ?_
    , hInv.2.2⟩
  · unfold parse_constraints_inner
    rw [hchain]
    rfl
  · exact finish_constraints_enforce _ rfl

/-- C6 witness: `rent_exempt = skip, init, rent_exempt` ends in
exactly one RentExempt(Enforce). -/
theorem C6_bare_rent_exempt_wins_witness :
    ∃ r, parse_constraints_inner
        [TokenTree.ident "rent_exempt", TokenTree.punct '=', TokenTree.ident "skip",
         TokenTree.punct ',', TokenTree.ident "init", TokenTree.punct ',',
         TokenTree.ident "rent_exempt"] = Except.ok r ∧
      ∃ cs, r.constraints = cs ++ [Constraint.rentExempt RentExemptKind.enforce] ∧
        ∀ k, Constraint.rentExempt k ∉ cs := by
  exact C6_bare_rent_exempt_wins
    [TokenTree.punct ',', TokenTree.ident "init", TokenTree.punct ','] _ rfl (by simp)

/-! ### Claim C5: strict two-token consumption for value keywords -/

theorem eqIdentStep_punct_ne (c : Char) (hc : ¬ c = '=') (rest2 : List TokenTree) (s : PState)
    (k : PState → String → PState) :
    eqIdentStep (TokenTree.punct c :: rest2) s k = Except.error assertEqMsg := by
  simp [eqIdentStep, hc]

theorem eqGroupStep_punct_ne (c : Char) (hc : ¬ c = '=') (rest2 : List TokenTree) (s : PState)
    (k : PState → List TokenTree → PState) :
    eqGroupStep (TokenTree.punct c :: rest2) s k = Except.error assertEqMsg := by
  simp [eqGroupStep, hc]

theorem eqLitStep_punct_ne (c : Char) (hc : ¬ c = '=') (rest2 : List TokenTree) (s : PState)
    (k : PState → String → Except String PState) :
    eqLitStep (TokenTree.punct c :: rest2) s k = Except.error assertEqMsg := by
  simp [eqLitStep, hc]

/-- The shared argument for the six identifier-valued keywords. -/
theorem run_value_keyword_ident (kw : String) (upd : PState → String → PState)
    (hred : ∀ rest s, step (TokenTree.ident kw) rest s = eqIdentStep rest s upd)
    (hkA : ¬ kw = "seeds") (hkB : ¬ kw = "space")
    (tail : List TokenTree) (s : PState) :
    (∀ v rest, tail = TokenTree.punct '=' :: v :: rest → expectedValueKind kw v = true →
      ∃ s2, run (TokenTree.ident kw :: tail) s = run rest s2) ∧
    ((∀ v rest, tail = TokenTree.punct '=' :: v :: rest → expectedValueKind kw v = false) →
      ∃ e, run (TokenTree.ident kw :: tail) s = Except.error e) := by
  constructor
  · rintro v rest rfl hv
    cases v with
    | ident x => exact ⟨upd s x, by rw [run_cons, hred]; rfl⟩
    | punct c => simp [expectedValueKind, hkA, hkB] at hv
    | lit l => simp [expectedValueKind, hkA, hkB] at hv
    | group g => simp [expectedValueKind, hkA, hkB] at hv
  · intro hbad
    rcases tail with _ | ⟨t0, tail2⟩
    · exact ⟨_, by rw [run_cons, hred]; rfl⟩
    rcases t0 with x | c | l | g
    · exact ⟨_, by rw [run_cons, hred]; rfl⟩
    · by_cases hc : c = '='
      · subst hc
        rcases tail2 with _ | ⟨v, rest⟩
        · exact ⟨_, by rw [run_cons, hred]; rfl⟩
        have hb := hbad v rest rfl
        cases v with
        | ident x => simp [expectedValueKind, hkA, hkB] at hb
        | punct c2 => exact ⟨_, by rw [run_cons, hred]; rfl⟩
        | lit l2 => exact ⟨_, by rw [run_cons, hred]; rfl⟩
        | group g2 => exact ⟨_, by rw [run_cons, hred]; rfl⟩
      · exact ⟨_, by rw [run_cons, hred, eqIdentStep_punct_ne c hc _ _ _]⟩
    · exact ⟨_, by rw [run_cons, hred]; rfl⟩
    · exact ⟨_, by rw [run_cons, hred]; rfl⟩

/-- C5: every value-bearing keyword (`seeds`, `belongs_to`/`has_one`,
`owner`, `state`, `associated`, `with`, `payer`, `space`) consumes
exactly two further tokens, a `=` and then a value token of its
expected kind; a missing or wrong-kind token is immediately fatal, so
no result (and no constraint) is produced at all. For every keyword
except `space` the loop then continues after the two consumed tokens;
for `space` the recorded value is the re-parsed literal, so the loop
continues exactly when the quote-stripped literal re-lexes and
otherwise the unwrap panic aborts the parse. -/
theorem C5_value_keywords (kw : String) (hkw : kw ∈ valueKeywords) (tail : List TokenTree)
    (s : PState) :
    (∀ v rest, tail = TokenTree.punct '=' :: v :: rest → expectedValueKind kw v = true →
      kw ≠ "space" → ∃ s2, run (TokenTree.ident kw :: tail) s = run rest s2) ∧
    (∀ l rest, kw = "space" → tail = TokenTree.punct '=' :: TokenTree.lit l :: rest →
      (∀ text, reparseLiteral l = Except.ok text →
        run (TokenTree.ident kw :: tail) s = run rest { s with space := some text }) ∧
      (∀ e, reparseLiteral l = Except.error e →
        run (TokenTree.ident kw :: tail) s = Except.error e)) ∧
    ((∀ v rest, tail = TokenTree.punct '=' :: v :: rest → expectedValueKind kw v = false) →
      ∃ e, run (TokenTree.ident kw :: tail) s = Except.error e) := by
  simp only [valueKeywords, List.mem_cons, List.not_mem_nil, or_false] at hkw
  rcases hkw with rfl | rfl | rfl | rfl | rfl | rfl | rfl | rfl | rfl
  case inl =>
    -- seeds: the value must be a token group
    have hred : ∀ rest s, step (TokenTree.ident "seeds") rest s = eqGroupStep rest s
        (fun s g => { s with constraints := s.constraints ++ [Constraint.seeds g] }) :=
      fun rest s => rfl
    refine ⟨?_, fun l rest hsp => absurd hsp (by decide), ?_⟩
    · rintro v rest rfl hv _
      cases v with
      | group g => exact ⟨_, by rw [run_cons, hred]; rfl⟩
      | ident x => simp [expectedValueKind] at hv
      | punct c => simp [expectedValueKind] at hv
      | lit l => simp [expectedValueKind] at hv
    · intro hbad
      rcases tail with _ | ⟨t0, tail2⟩
      · exact ⟨_, by rw [run_cons, hred]; rfl⟩
      rcases t0 with x | c | l | g
      · exact ⟨_, by rw [run_cons, hred]; rfl⟩
      · by_cases hc : c = '='
        · subst hc
          rcases tail2 with _ | ⟨v, rest⟩
          · exact ⟨_, by rw [run_cons, hred]; rfl⟩
          have hb := hbad v rest rfl
          cases v with
          | group g => simp [expectedValueKind] at hb
          | ident x => exact ⟨_, by rw [run_cons, hred]; rfl⟩
          | punct c2 => exact ⟨_, by rw [run_cons, hred]; rfl⟩
          | lit l2 => exact ⟨_, by rw [run_cons, hred]; rfl⟩
        · exact ⟨_, by rw [run_cons, hred, eqGroupStep_punct_ne c hc _ _ _]⟩
      · exact ⟨_, by rw [run_cons, hred]; rfl⟩
      · exact ⟨_, by rw [run_cons, hred]; rfl⟩
  case inl =>
    have H := run_value_keyword_ident "belongs_to"
      (fun s tgt => { s with constraints := s.constraints ++ [Constraint.belongsTo tgt] })
      (fun rest s => rfl) (by decide) (by decide) tail s
    exact ⟨fun v rest ht hv _ => H.1 v rest ht hv
      , fun l rest hsp => absurd hsp (by decide), H.2⟩
  case inl =>
    have H := run_value_keyword_ident "has_one"
      (fun s tgt => { s with constraints := s.constraints ++ [Constraint.belongsTo tgt] })
      (fun rest s => rfl) (by decide) (by decide) tail s
    exact ⟨fun v rest ht hv _ => H.1 v rest ht hv
      , fun l rest hsp => absurd hsp (by decide), H.2⟩
  case inl =>
    have H := run_value_keyword_ident "owner"
      (fun s tgt => { s with constraints := s.constraints ++ [Constraint.owner tgt] })
      (fun rest s => rfl) (by decide) (by decide) tail s
    exact ⟨fun v rest ht hv _ => H.1 v rest ht hv
      , fun l rest hsp => absurd hsp (by decide), H.2⟩
  case inl =>
    have H := run_value_keyword_ident "state"
      (fun s tgt => { s with constraints := s.constraints ++ [Constraint.state tgt] })
      (fun rest s => rfl) (by decide) (by decide) tail s
    exact ⟨fun v rest ht hv _ => H.1 v rest ht hv
      , fun l rest hsp => absurd hsp (by decide), H.2⟩
  case inl =>
    have H := run_value_keyword_ident "associated"
      (fun s tgt => { s with is_associated := true, is_mut := true
                           , constraints := s.constraints ++ [Constraint.associated tgt] })
      (fun rest s => rfl) (by decide) (by decide) tail s
    exact ⟨fun v rest ht hv _ => H.1 v rest ht hv
      , fun l rest hsp => absurd hsp (by decide), H.2⟩
  case inl =>
    have H := run_value_keyword_ident "with"
      (fun s seed => { s with associated_seeds := s.associated_seeds ++ [seed] })
      (fun rest s => rfl) (by decide) (by decide) tail s
    exact ⟨fun v rest ht hv _ => H.1 v rest ht hv
      , fun l rest hsp => absurd hsp (by decide), H.2⟩
  case inl =>
    have H := run_value_keyword_ident "payer"
      (fun s p => { s with payer := some p })
      (fun rest s => rfl) (by decide) (by decide) tail s
    exact ⟨fun v rest ht hv _ => H.1 v rest ht hv
      , fun l rest hsp => absurd hsp (by decide), H.2⟩
  case inr =>
    -- space: the value must be a literal, which is then re-parsed
    have hred : ∀ rest s, step (TokenTree.ident "space") rest s = eqLitStep rest s
        (fun s l => (reparseLiteral l).map fun text => { s with space := some text }) :=
      fun rest s => rfl
    refine ⟨fun v rest ht hv hne => absurd rfl hne, ?_, ?_⟩
    · rintro l rest _ rfl
      constructor
      · intro text hre
        rw [run_cons]
        simp only [step]
        rw [stepIdent_space_ok l text rest s hre]
      · intro e hre
        rw [run_cons]
        simp only [step]
        rw [stepIdent_space_err l e rest s hre]
    · intro hbad
      rcases tail with _ | ⟨t0, tail2⟩
      · exact ⟨_, by rw [run_cons, hred]; rfl⟩
      rcases t0 with x | c | l | g
      · exact ⟨_, by rw [run_cons, hred]; rfl⟩
      · by_cases hc : c = '='
        · subst hc
          rcases tail2 with _ | ⟨v, rest⟩
          · exact ⟨_, by rw [run_cons, hred]; rfl⟩
          have hb := hbad v rest rfl
          cases v with
          | lit l2 => simp [expectedValueKind] at hb
          | ident x => exact ⟨_, by rw [run_cons, hred]; rfl⟩
          | punct c2 => exact ⟨_, by rw [run_cons, hred]; rfl⟩
          | group g2 => exact ⟨_, by rw [run_cons, hred]; rfl⟩
        · exact ⟨_, by rw [run_cons, hred, eqLitStep_punct_ne c hc _ _ _]⟩
      · exact ⟨_, by rw [run_cons, hred]; rfl⟩
      · exact ⟨_, by rw [run_cons, hred]; rfl⟩

/-- C5 witness: `owner` with no following token is fatal, and a
`space` literal whose quote-stripped text does not re-lex is fatal
with the LexError panic. -/
theorem C5_value_keywords_witness :
    (∃ e, run [TokenTree.ident "owner"] initialPState = Except.error e) ∧
    run [TokenTree.ident "space", TokenTree.punct '=', TokenTree.lit "\"8 + (32\""]
      initialPState = Except.error lexErrMsg := by
  constructor
  · exact (C5_value_keywords "owner" (by simp [valueKeywords]) [] initialPState).2.2
      (fun v rest h => nomatch h)
  · exact ((C5_value_keywords "space" (by simp [valueKeywords])
      [TokenTree.punct '=', TokenTree.lit "\"8 + (32\""] initialPState).2.1
      "\"8 + (32\"" [] rfl rfl).2 lexErrMsg rfl

/-! ### Claims about the sysvar resolver and the field classifier -/

/-- C1 counterexample: the fixed sysvar table recognizes ten pairwise
distinct identifiers (so not nine as claimed): all ten names resolve
successfully. -/
theorem C1_sysvar_table_counterexample :
    sysvarNames.Nodup ∧ sysvarNames.length = 10 ∧
      sysvarAccepted = List.replicate 10 true := by
  refine ⟨by decide, rfl, rfl⟩

/-- C1 (amended): the resolved generic identifier of a Sysvar wrapper
is mapped through the fixed ten-entry table to the corresponding
sysvar kind, and any identifier outside the table is fatal with
`Invalid Sysvar`. -/
theorem C1_sysvar_table (s : String) :
    (sysvarNames.map fun n => parse_sysvar (sysvarWrapPath n)) =
      [Except.ok SysvarTy.clock, Except.ok SysvarTy.rent,
       Except.ok SysvarTy.epochSchedule, Except.ok SysvarTy.fees,
       Except.ok SysvarTy.recentBlockhashes, Except.ok SysvarTy.slotHashes,
       Except.ok SysvarTy.slotHistory, Except.ok SysvarTy.stakeHistory,
       Except.ok SysvarTy.instructions, Except.ok SysvarTy.rewards] ∧
    (s ∉ sysvarNames → parse_sysvar (sysvarWrapPath s) = Except.error "Invalid Sysvar") := by
  refine ⟨rfl, fun hs => ?_⟩
  show sysvarTyOfString s = Except.error "Invalid Sysvar"
  simp only [sysvarNames, List.mem_cons, List.not_mem_nil, or_false, not_or] at hs
  obtain ⟨n1, n2, n3, n4, n5, n6, n7, n8, n9, n10⟩ := hs
  unfold sysvarTyOfString
  rw [if_neg n1, if_neg n2, if_neg n3, if_neg n4, if_neg n5, if_neg n6, if_neg n7,
    if_neg n8, if_neg n9, if_neg n10]

/-- C1 witness: the unrecognized identifier `Epoch` is fatal with
`Invalid Sysvar`. -/
theorem C1_sysvar_table_witness :
    parse_sysvar (sysvarWrapPath "Epoch") = Except.error "Invalid Sysvar" :=
  (C1_sysvar_table "Epoch").2 (by decide)

/-- C8: two or more account annotations on one field are fatal with
the error naming "specify one account attribute"; zero annotations
yield no attribute; exactly one yields that attribute for constraint
parsing. -/
theorem C8_single_attribute (f : SynField) :
    (2 ≤ (f.attrs.filter is_account_attr).length →
      parse_account_field f =
        Except.error "Invalid syntax: please specify one account attribute.") ∧
    ((f.attrs.filter is_account_attr).length = 0 → parse_account_attr f = Except.ok none) ∧
    (∀ a, f.attrs.filter is_account_attr = [a] →
      parse_account_attr f = Except.ok (some a)) := by
  refine ⟨fun hlen => ?_, fun hlen => ?_, fun a ha => ?_⟩
  · have hattr : parse_account_attr f =
        Except.error "Invalid syntax: please specify one account attribute." := by
      unfold parse_account_attr
      rcases hfl : f.attrs.filter is_account_attr with _ | ⟨a, _ | ⟨b, tl⟩⟩
      · rw [hfl] at hlen; simp at hlen
      · rw [hfl] at hlen; simp at hlen
      · rfl
    unfold parse_account_field
    rw [hattr]
    rfl
  · unfold parse_account_attr
    rcases hfl : f.attrs.filter is_account_attr with _ | ⟨a, tl⟩
    · rfl
    · rw [hfl] at hlen; simp at hlen
  · unfold parse_account_attr
    rw [ha]

/-- C8 witness: a field with two `account` annotations fails with the
attribute-count error. -/
theorem C8_single_attribute_witness :
    parse_account_field fieldTwoAttrs =
      Except.error "Invalid syntax: please specify one account attribute." :=
  (C8_single_attribute fieldTwoAttrs).1 (by decide)

theorem ident_string_single (f : SynField) (seg : PathSegment)
    (hty : f.ty = TypeExpr.path { segments := [seg] }) :
    ident_string f = Except.ok seg.ident := by
  unfold ident_string
  rw [hty]

theorem isPrimitiveName_iff (s : String) :
    isPrimitiveName s = true ↔ s ∈ wrapperNames := by
  simp only [isPrimitiveName, wrapperNames, Bool.or_eq_true, beq_iff_eq,
    List.mem_cons, List.not_mem_nil, or_false]
  tauto

theorem parse_account_field_ok_prim (f : SynField) (r : AccountField)
    (h : parse_account_field f = Except.ok r) :
    ∃ b, is_field_primitive f = Except.ok b := by
  unfold parse_account_field at h
  cases haa : parse_account_attr f with
  | error e => rw [haa] at h; exact Except.noConfusion h
  | ok anchor =>
    rw [haa] at h
    simp only [Except.bind] at h
    unfold parse_field at h
    cases hid : f.ident with
    | none => rw [hid] at h; exact Except.noConfusion h
    | some nm =>
      rw [hid] at h
      cases hcp : (match anchor with
                   | none => Except.ok defaultConstraintsParse
                   | some a => parse_constraints a) with
      | error e => rw [hcp] at h; exact Except.noConfusion h
      | ok cp =>
        rw [hcp] at h
        cases hprim : is_field_primitive f with
        | error e => rw [hprim] at h; exact Except.noConfusion h
        | ok b => exact ⟨b, rfl⟩


/-- C7: a field whose declared type path does not have exactly one
segment is fatal; with a single segment, a wrapper-name identifier
yields a leaf `AccountField.field` whose type is the resolved `Ty`,
and any other identifier yields a composite field carrying the
identifier as its opaque symbol together with the raw field. -/
theorem C7_field_classification (f : SynField) :
    (∀ p, f.ty = TypeExpr.path p → p.segments.length ≠ 1 →
      ∃ e, parse_account_field f = Except.error e) ∧
    (∀ seg r, f.ty = TypeExpr.path { segments := [seg] } →
      parse_account_field f = Except.ok r →
      ((seg.ident ∈ wrapperNames →
        ∃ fld, r = AccountField.field fld ∧ parse_ty f = Except.ok fld.ty) ∧
       (seg.ident ∉ wrapperNames →
        ∃ c, r = AccountField.accountsStruct c ∧ c.symbol = seg.ident ∧
          c.raw_field = f))) := by
  constructor
  · intro p hty hlen
    cases hres : parse_account_field f with
    | error e => exact ⟨e, rfl⟩
    | ok r =>
      obtain ⟨b, hprim⟩ := parse_account_field_ok_prim f r hres
      have his : ident_string f =
          Except.error "assertion failed: path.segments.len() == 1" := by
        simp only [ident_string, hty]
        rcases hsegs : p.segments with _ | ⟨a, _ | ⟨b2, tl⟩⟩
        · rfl
        · rw [hsegs] at hlen; simp at hlen
        · rfl
      unfold is_field_primitive at hprim
      rw [his] at hprim
      exact Except.noConfusion hprim
  · intro seg r hty h
    have his : ident_string f = Except.ok seg.ident := ident_string_single f seg hty
    have hprim : is_field_primitive f = Except.ok (isPrimitiveName seg.ident) := by
      unfold is_field_primitive
      rw [his]
      rfl
    unfold parse_account_field at h
    cases haa : parse_account_attr f with
    | error e => rw [haa] at h; exact Except.noConfusion h
    | ok anchor =>
      rw [haa] at h
      simp only [Except.bind] at h
      unfold parse_field at h
      cases hid : f.ident with
      | none => rw [hid] at h; exact Except.noConfusion h
      | some nm =>
        rw [hid] at h
        cases hcp : (match anchor with
                     | none => Except.ok defaultConstraintsParse
                     | some a => parse_constraints a) with
        | error e => rw [hcp] at h; exact Except.noConfusion h
        | ok cp =>
          rw [hcp, hprim] at h
          by_cases hmem : seg.ident ∈ wrapperNames
          · rw [(isPrimitiveName_iff _).mpr hmem] at h
            cases hpty : parse_ty f with
            | error e => rw [hpty] at h; exact Except.noConfusion h
            | ok ty =>
              rw [hpty] at h
              injection h with h2
              subst h2
              exact ⟨fun _ => ⟨_, rfl, rfl⟩, fun hnm => absurd hmem hnm⟩
          · have hfalse : isPrimitiveName seg.ident = false := by
              rcases hb : isPrimitiveName seg.ident
              · rfl
              · exact absurd ((isPrimitiveName_iff _).mp hb) hmem
            rw [hfalse, his] at h
            injection h with h2
            subst h2
            exact ⟨fun hmem2 => absurd hmem2 hmem, fun _ => ⟨_, rfl, rfl, rfl⟩⟩

/-- C7 witness: the unrecognized type name `Foo` with a single-segment
path yields a composite field carrying `Foo` as symbol and the raw
field. -/
theorem C7_field_classification_witness :
    ∃ c, parse_account_field fieldFoo = Except.ok (AccountField.accountsStruct c) ∧
      c.symbol = "Foo" ∧ c.raw_field = fieldFoo := by
  have hres : parse_account_field fieldFoo = Except.ok (AccountField.accountsStruct
      { ident := "f", symbol := "Foo", constraints := [], raw_field := fieldFoo }) := rfl
  obtain ⟨c, hcr, hsym, hraw⟩ :=
    ((C7_field_classification fieldFoo).2 { ident := "Foo", arguments := PathArguments.noArgs }
      _ rfl hres).2 (by decide)
  exact ⟨c, hcr ▸ hres, hsym, hraw⟩

/-- C9: a field with no account annotation parses to a node with an
empty constraint list, all flags false, no payer, no space and no seed
identifiers. -/
theorem C9_no_annotation_defaults (f : SynField) (r : AccountField)
    (hno : f.attrs.filter is_account_attr = [])
    (h : parse_account_field f = Except.ok r) :
    (∀ fld, r = AccountField.field fld → fld.constraints = [] ∧ fld.is_mut = false ∧
      fld.is_signer = false ∧ fld.is_init = false ∧ fld.payer = none ∧
      fld.space = none ∧ fld.associated_seeds = []) ∧
    (∀ c, r = AccountField.accountsStruct c → c.constraints = []) := by
  have hattr : parse_account_attr f = Except.ok none := by
    unfold parse_account_attr
    rw [hno]
  unfold parse_account_field at h
  rw [hattr] at h
  simp only [Except.bind] at h
  unfold parse_field at h
  cases hid : f.ident with
  | none => rw [hid] at h; exact Except.noConfusion h
  | some nm =>
    rw [hid] at h
    cases hprim : is_field_primitive f with
    | error e => rw [hprim] at h; exact Except.noConfusion h
    | ok b =>
      rw [hprim] at h
      cases b
      · cases hsym : ident_string f with
        | error e => rw [hsym] at h; exact Except.noConfusion h
        | ok symbol =>
          rw [hsym] at h
          injection h with h2
          subst h2
          refine ⟨fun fld hf => (nomatch hf), fun c hc => ?_⟩
          cases hc
          rfl
      · cases hpty : parse_ty f with
        | error e => rw [hpty] at h; exact Except.noConfusion h
        | ok ty =>
          rw [hpty] at h
          injection h with h2
          subst h2
          refine ⟨fun fld hf => ?_, fun c hc => (nomatch hc)⟩
          cases hf
          exact ⟨rfl, rfl, rfl, rfl, rfl, rfl, rfl⟩

/-- C9 witness: an unannotated `AccountInfo` field parses to a leaf
with all defaults. -/
theorem C9_no_annotation_defaults_witness :
    ∃ fld, parse_account_field fieldPlain = Except.ok (AccountField.field fld) ∧
      fld.constraints = [] ∧ fld.is_mut = false ∧ fld.is_signer = false ∧
      fld.is_init = false ∧ fld.payer = none ∧ fld.space = none ∧
      fld.associated_seeds = [] := by
  have hres : parse_account_field fieldPlain = Except.ok (AccountField.field
      { ident := "acc", ty := Ty.accountInfo, constraints := []
      , is_mut := false, is_signer := false, is_init := false
      , payer := none, space := none, associated_seeds := [] }) := rfl
  exact ⟨_, hres, (C9_no_annotation_defaults fieldPlain _ rfl hres).1 _ rfl⟩

/-- C10: for a composite field, the flags, payer, space and seed
identifiers parsed from an annotation are discarded — two annotations
agreeing on the constraint list produce the same composite result. -/
theorem C10_composite_discards_flags (f : SynField) (a a2 : Attribute)
    (r r2 : ConstraintsParse)
    (h : parse_constraints a = Except.ok r) (h2 : parse_constraints a2 = Except.ok r2)
    (hc : r.constraints = r2.constraints)
    (hprim : is_field_primitive f = Except.ok false) :
    parse_field f (some a) = parse_field f (some a2) := by
  unfold parse_field
  cases hid : f.ident with
  | none => rfl
  | some nm =>
    simp only [Except.bind, h, h2, hprim, hc]

/-- C10 witness: on the composite field of type `Foo`, the annotation
`(mut, payer = p)` parses to the same composite result as the empty
annotation, without error. -/
theorem C10_composite_discards_flags_witness :
    parse_field fieldFoo (some attrMutPayer) = parse_field fieldFoo (some attrEmptyGroup) ∧
    ∃ c, parse_field fieldFoo (some attrMutPayer) =
      Except.ok (AccountField.accountsStruct c) := by
  have h1 : parse_constraints attrMutPayer = Except.ok
      { constraints := [], is_mut := true, is_signer := false, is_init := false
      , payer := some "p", space := none, associated_seeds := [] } := rfl
  have h2 : parse_constraints attrEmptyGroup = Except.ok
      { constraints := [], is_mut := false, is_signer := false, is_init := false
      , payer := none, space := none, associated_seeds := [] } := rfl
  exact ⟨C10_composite_discards_flags fieldFoo attrMutPayer attrEmptyGroup _ _ h1 h2 rfl rfl
    , _, rfl⟩

end Anchor
